import Mathlib

/-!
Verification of the seedarr release-name synthesis and packaging engine.

Rust strings are embedded as List Char. Each definition mirrors the
corresponding Rust function from src/core/naming, src/app/sonarr.rs and
src/app/common.rs; a few data declarations whose source file is absent
are modelled from the design document and are marked as such.
-/

namespace Seedarr

/-- Rust char::to_ascii_lowercase. -/
def asciiLower (c : Char) : Char :=
  if 'A' ≤ c ∧ c ≤ 'Z' then Char.ofNat (c.toNat + 32) else c

/-- Rust str::to_ascii_lowercase, characterwise. -/
def lowerStr (s : List Char) : List Char := s.map asciiLower

/-- Rust char::to_ascii_uppercase. -/
def asciiUpper (c : Char) : Char :=
  if 'a' ≤ c ∧ c ≤ 'z' then Char.ofNat (c.toNat - 32) else c

/-- Rust str::to_ascii_uppercase, characterwise. -/
def upperStr (s : List Char) : List Char := s.map asciiUpper

/-- Rust str::contains(pat): pat occurs as a contiguous substring. -/
def containsSub (pat : List Char) : List Char → Bool
  | [] => List.isPrefixOf pat []
  | c :: cs => List.isPrefixOf pat (c :: cs) || containsSub pat cs

/-- Modelled from the spec: the Unicode alphanumeric test used by the
tokenizer (Rust char::is_alphanumeric, i.e. the Alphabetic or Numeric
property).  The full Unicode table is out of scope; the model is exact on
the fragments this development evaluates: ASCII, the Latin-1 letters, the
Hangul leading and vowel jamo blocks and the precomposed Hangul syllable
block (all of which are Alphabetic). -/
def rustIsAlphanumeric (c : Char) : Bool :=
  c.isAlpha || c.isDigit ||
  (0xC0 ≤ c.toNat && c.toNat ≤ 0xFF && c.toNat ≠ 0xD7 && c.toNat ≠ 0xF7) ||
  (0x1100 ≤ c.toNat && c.toNat ≤ 0x1112) ||
  (0x1161 ≤ c.toNat && c.toNat ≤ 0x1175) ||
  (0xAC00 ≤ c.toNat && c.toNat ≤ 0xD7A3)

/-- Rust char::is_control: the Cc category, U+0000..U+001F and U+007F..U+009F. -/
def rustIsControl (c : Char) : Bool :=
  c.toNat < 0x20 || (0x7F ≤ c.toNat && c.toNat ≤ 0x9F)

/-- The decorative symbols dropped by the tokenizer (builder.rs line 19). -/
def isDropSymbol (c : Char) : Bool :=
  c = '©' || c = '®' || c = '™' || c = '℗'

/-- Leading Hangul jamo (composition per UAX 15, arithmetic part). -/
def isJamoL (c : Char) : Bool := 0x1100 ≤ c.toNat && c.toNat ≤ 0x1112

/-- Vowel Hangul jamo. -/
def isJamoV (c : Char) : Bool := 0x1161 ≤ c.toNat && c.toNat ≤ 0x1175

/-- Trailing Hangul jamo. -/
def isJamoT (c : Char) : Bool := 0x11A8 ≤ c.toNat && c.toNat ≤ 0x11C2

/-- A precomposed Hangul LV syllable (no trailing consonant yet). -/
def isHangulLV (c : Char) : Bool :=
  0xAC00 ≤ c.toNat && c.toNat ≤ 0xD7A3 && (c.toNat - 0xAC00) % 28 == 0

/-- Modelled from the spec: the composed Unicode normal form (NFC) applied
by the tokenizer before character classification (the nfc() call of the
unicode-normalization crate, builder.rs line 11).  A full UCD-driven NFC is
out of scope; the model implements the algorithmic Hangul composition of
UAX 15 section 3.12 exactly and is the identity elsewhere, which is the
exact NFC behaviour on every string this development evaluates.  This is
the pairwise composition step: the pending starter character is combined
with the next character whenever UAX 15 composes them. -/
def nfcRun (pending : Char) : List Char → List Char
  | [] => [pending]
  | b :: rest =>
    if isJamoL pending && isJamoV b then
      nfcRun (Char.ofNat (0xAC00 + (pending.toNat - 0x1100) * 588 + (b.toNat - 0x1161) * 28)) rest
    else if isHangulLV pending && isJamoT b then
      nfcRun (Char.ofNat (pending.toNat + (b.toNat - 0x11A7))) rest
    else pending :: nfcRun b rest

/-- Modelled from the spec: see nfcRun.  The composed normal form over a
whole string. -/
def nfcModel : List Char → List Char
  | [] => []
  | c :: rest => nfcRun c rest

/-- The character loop of normalize_tokens_to_scene (builder.rs lines 13-36).
The Bool argument is the last_dot flag. -/
def sceneFold : List Char → Bool → List Char
  | [], _ => []
  | c :: cs, lastDot =>
    if rustIsAlphanumeric c then c :: sceneFold cs false
    else if isDropSymbol c || rustIsControl c then sceneFold cs lastDot
    else if lastDot then sceneFold cs true
    else '.' :: sceneFold cs true

/-- Rust str::trim_matches applied from the right. -/
def dropTrailingDots (l : List Char) : List Char :=
  (l.reverse.dropWhile (fun c => c == '.')).reverse

/-- Rust out.trim_matches(dot) (builder.rs line 37). -/
def trimDots (l : List Char) : List Char :=
  dropTrailingDots (l.dropWhile (fun c => c == '.'))

/-- builder.rs normalize_tokens_to_scene: NFC, then separators to dots with
collapse, then trim the dots at both ends. -/
def normalize_tokens_to_scene (s : List Char) : List Char :=
  trimDots (sceneFold (nfcModel s) false)

/-- types.rs Issue. -/
inductive Issue where
  | Empty
  | IsUnknown
  | MissingDots
  | MissingYear
  | MissingResolution
  | MissingSource
  | MissingVideoCodec
deriving DecidableEq, Repr

/-- types.rs ValidationResult. -/
structure ValidationResult where
  valid : Bool
  issues : List Issue
deriving DecidableEq, Repr

/-- types.rs SceneNameParts.  The episode_tag field is assigned by
builder.rs but its declaration is absent from the copy of types.rs in the
repository snapshot; it is included here as the builder requires it (spec
section 3 lists an optional episode tag string among the fields). -/
structure SceneNameParts where
  title_tokens : List (List Char) := []
  year : Option Nat := none
  episode_tag : Option (List Char) := none
  resolution : Option (List Char) := none
  source : Option (List Char) := none
  video_codec : Option (List Char) := none
  audio_codec : Option (List Char) := none
  audio_channels : Option (List Char) := none
  bit_depth : Option (List Char) := none
  hdr : Bool := false
  dv : Bool := false
  languages : List (List Char) := []
  language_tag : Option (List Char) := none
  release_group : Option (List Char) := none
  extra_tags : List (List Char) := []
deriving DecidableEq, Repr

/-- types.rs RadarrHints (movie hints). -/
structure RadarrHints where
  title : List Char := []
  year : Option Nat := none
  quality : Option (List Char) := none
  release_group : Option (List Char) := none
deriving DecidableEq, Repr

/-- Modelled from the spec: the EpisodeHints struct is used by builder.rs
and constructed in app/sonarr.rs but its declaration is absent from the
repository snapshot.  Fields follow spec section 3 (episode hints: series
title, optional series year, optional season number, list of episode
numbers, list of absolute episode numbers, optional quality string,
optional release-group string) and the construction site in sonarr.rs. -/
structure EpisodeHints where
  series_title : List Char := []
  series_year : Option Nat := none
  season_number : Option Nat := none
  episode_numbers : List Nat := []
  absolute_episode_numbers : List Nat := []
  quality : Option (List Char) := none
  release_group : Option (List Char) := none
deriving DecidableEq, Repr

/-- Modelled from the spec: the PackHints struct is used by builder.rs and
constructed in app/sonarr.rs but its declaration is absent from the
repository snapshot.  Fields follow spec section 3 (pack hints: title,
optional year, pack tag string, optional quality string, optional
release-group string) and the construction sites in sonarr.rs. -/
structure PackHints where
  title : List Char := []
  year : Option Nat := none
  pack_tag : List Char := []
  quality : Option (List Char) := none
  release_group : Option (List Char) := none
deriving DecidableEq, Repr

/-- types.rs TechnicalInfo.  Audio and subtitle language sets (BTreeSet of
String in the source) are carried as lists. -/
structure TechnicalInfo where
  resolution : Option (List Char) := none
  video_codec : Option (List Char) := none
  bit_depth : Option (List Char) := none
  hdr : Bool := false
  dv : Bool := false
  audio_codec : Option (List Char) := none
  audio_channels : Option (List Char) := none
  audio_languages : List (List Char) := []
  subtitle_languages : List (List Char) := []
  has_vfi : Bool := false
  container : Option (List Char) := none
deriving DecidableEq, Repr

/-- types.rs DecisionReason. -/
inductive DecisionReason where
  | AcceptedExisting
  | Rebuilt (issues : List Issue)
deriving DecidableEq, Repr

/-- types.rs SceneDecision. -/
structure SceneDecision where
  chosen : List Char
  reason : DecisionReason
deriving DecidableEq, Repr

/-- Lexicographic comparison on embedded strings, the BTreeSet order for
String keys. -/
def listCharLt : List Char → List Char → Bool
  | [], [] => false
  | [], _ :: _ => true
  | _ :: _, [] => false
  | a :: as, b :: bs => if a < b then true else if b < a then false else listCharLt as bs

/-- Ordered insertion without duplicates: the model of BTreeSet insert for
the string sets carried in SceneNameParts. -/
def setInsert (x : List Char) : List (List Char) → List (List Char)
  | [] => [x]
  | y :: ys => if listCharLt x y then x :: y :: ys
               else if x = y then y :: ys
               else y :: setInsert x ys

/-- builder.rs canonicalize_video_codec. -/
def canonicalize_video_codec (s : List Char) : List Char :=
  let l := lowerStr s
  if containsSub "265".toList l then "x265".toList
  else if containsSub "264".toList l then "x264".toList
  else s

/-- builder.rs language_tag: MULTi.VF for several audio languages, VF for
French only, VOSTFR for English only, nothing otherwise. -/
def language_tag (tech : TechnicalInfo) : Option (List Char) :=
  match tech.audio_languages with
  | [] => none
  | [only] =>
    if only = "fr".toList then some "VF".toList
    else if only = "en".toList then some "VOSTFR".toList
    else none
  | _ :: _ :: _ => some "MULTi.VF".toList

/-- builder.rs sanitize_release_group: keep only ASCII alphanumerics. -/
def sanitize_release_group (s : List Char) : List Char :=
  s.filter (fun c => c.isAlpha || c.isDigit)

/-- builder.rs infer_resolution_from_quality. -/
def infer_resolution_from_quality (q : Option (List Char)) : Option (List Char) :=
  match q with
  | none => none
  | some qs =>
    let ql := lowerStr qs
    if containsSub "2160".toList ql || containsSub "uhd".toList ql || containsSub "4k".toList ql then
      some "2160p".toList
    else if containsSub "1440".toList ql then some "1440p".toList
    else if containsSub "1080".toList ql || containsSub "fhd".toList ql then some "1080p".toList
    else if containsSub "720".toList ql || containsSub "hd".toList ql then some "720p".toList
    else none

/-- builder.rs infer_source_from_quality. -/
def infer_source_from_quality (q : Option (List Char)) : Option (List Char) :=
  match q with
  | none => none
  | some qs =>
    let ql := lowerStr qs
    if containsSub "web-dl".toList ql || containsSub "webrip".toList ql || containsSub "web".toList ql then
      some "WEB".toList
    else if containsSub "blu".toList ql then some "BluRay".toList
    else none

/-- Rust str::split on the dot character (keeps empty groups). -/
def splitDots : List Char → List (List Char)
  | [] => [[]]
  | c :: cs =>
    let r := splitDots cs
    if c = '.' then [] :: r
    else match r with
         | [] => [[c]]
         | g :: gs => (c :: g) :: gs

/-- The mismatch test of builder.rs lines 145-150: both the probe and the
quality string give a resolution and they differ. -/
def resolutionMismatch (techRes inferredRes : Option (List Char)) : Bool :=
  match techRes, inferredRes with
  | some tr, some ir => decide (tr ≠ ir)
  | _, _ => false

/-- builder.rs build_parts_from (movie variant). -/
def build_parts_from (hints : RadarrHints) (tech : TechnicalInfo) : SceneNameParts :=
  let title := normalize_tokens_to_scene hints.title
  let inferred_res := infer_resolution_from_quality hints.quality
  let inferred_source := infer_source_from_quality hints.quality
  let mismatch := resolutionMismatch tech.resolution inferred_res
  { title_tokens := if title = [] then [] else splitDots title
    year := hints.year
    language_tag := language_tag tech
    resolution := if mismatch then tech.resolution else tech.resolution.or inferred_res
    source := if mismatch then none else inferred_source
    hdr := tech.hdr
    dv := tech.dv
    bit_depth := tech.bit_depth
    audio_codec := tech.audio_codec
    audio_channels := tech.audio_channels
    video_codec := tech.video_codec.map canonicalize_video_codec
    extra_tags := if tech.has_vfi then setInsert "VFI".toList [] else []
    release_group := match hints.release_group with
      | none => none
      | some g => if sanitize_release_group g = [] then none else some (sanitize_release_group g) }

/-- Left zero-padding to a minimum width, the Rust format { :0w } rendering
of a number. -/
def padNum (w n : Nat) : List Char :=
  let d := Nat.toDigits 10 n
  List.replicate (w - d.length) '0' ++ d

/-- Rust Vec::dedup: remove consecutive duplicates, keeping the first. -/
def dedupConsec : List Nat → List Nat
  | [] => []
  | [a] => [a]
  | a :: b :: rest => if a = b then dedupConsec (b :: rest) else a :: dedupConsec (b :: rest)

/-- Concatenation of E-prefixed zero-padded numbers, the joined map of
builder.rs lines 184-188 and 202-205. -/
def joinTags (w : Nat) (ns : List Nat) : List Char :=
  (ns.map (fun n => 'E' :: padNum w n)).flatten

/-- builder.rs episode_tag_from_hints. -/
def episode_tag_from_hints (hints : EpisodeHints) : Option (List Char) :=
  if hints.absolute_episode_numbers ≠ [] then
    some (joinTags 3 (dedupConsec (List.insertionSort (· ≤ ·) hints.absolute_episode_numbers)))
  else
    match hints.season_number with
    | none => none
    | some season =>
      if hints.episode_numbers = [] then none
      else
        some (('S' :: padNum 2 season) ++
          joinTags 2 (dedupConsec (List.insertionSort (· ≤ ·) hints.episode_numbers)))

/-- builder.rs build_episode_parts_from (episode variant). -/
def build_episode_parts_from (hints : EpisodeHints) (tech : TechnicalInfo) : SceneNameParts :=
  let title := normalize_tokens_to_scene hints.series_title
  let inferred_res := infer_resolution_from_quality hints.quality
  let inferred_source := infer_source_from_quality hints.quality
  let mismatch := resolutionMismatch tech.resolution inferred_res
  { title_tokens := if title = [] then [] else splitDots title
    episode_tag := episode_tag_from_hints hints
    language_tag := language_tag tech
    resolution := if mismatch then tech.resolution else tech.resolution.or inferred_res
    source := if mismatch then none else inferred_source
    hdr := tech.hdr
    dv := tech.dv
    bit_depth := tech.bit_depth
    audio_codec := tech.audio_codec
    audio_channels := tech.audio_channels
    video_codec := tech.video_codec.map canonicalize_video_codec
    extra_tags := if tech.has_vfi then setInsert "VFI".toList [] else []
    release_group := match hints.release_group with
      | none => none
      | some g => if sanitize_release_group g = [] then none else some (sanitize_release_group g) }

/-- builder.rs build_pack_parts_from (pack variant). -/
def build_pack_parts_from (hints : PackHints) (tech : TechnicalInfo) : SceneNameParts :=
  let title := normalize_tokens_to_scene hints.title
  let inferred_res := infer_resolution_from_quality hints.quality
  let inferred_source := infer_source_from_quality hints.quality
  let mismatch := resolutionMismatch tech.resolution inferred_res
  { title_tokens := if title = [] then [] else splitDots title
    year := hints.year
    episode_tag := some (normalize_tokens_to_scene hints.pack_tag)
    language_tag := language_tag tech
    resolution := if mismatch then tech.resolution else tech.resolution.or inferred_res
    source := if mismatch then none else inferred_source
    hdr := tech.hdr
    dv := tech.dv
    bit_depth := tech.bit_depth
    audio_codec := tech.audio_codec
    audio_channels := tech.audio_channels
    video_codec := tech.video_codec.map canonicalize_video_codec
    extra_tags := if tech.has_vfi then setInsert "VFI".toList [] else []
    release_group := match hints.release_group with
      | none => none
      | some g => if sanitize_release_group g = [] then none else some (sanitize_release_group g) }

/-- builder.rs salvage_special_tags: keyword scan over the lowercased
original name, collected into a BTreeSet. -/
def salvage_special_tags (original : Option (List Char)) : List (List Char) :=
  match original with
  | none => []
  | some s =>
    let l := lowerStr s
    let step := fun (acc : List (List Char)) (pair : List Char × Bool) =>
      if pair.2 then setInsert pair.1 acc else acc
    [( "IMAX".toList, containsSub "imax".toList l),
     ( "HDLight".toList, containsSub "hdlight".toList l),
     ( "4KLight".toList, containsSub "4klight".toList l || containsSub "4k light".toList l),
     ( "Unrated".toList, containsSub "unrated".toList l),
     ( "Extended".toList, containsSub "extended".toList l),
     ( "Remastered".toList, containsSub "remastered".toList l),
     ( "Directors.Cut".toList, containsSub "director".toList l && containsSub "cut".toList l),
     ( "Theatrical.Cut".toList, containsSub "theatrical cut".toList l),
     ( "Proper".toList, containsSub "proper".toList l),
     ( "Repack".toList, containsSub "repack".toList l)].foldl step []

/-- builder.rs extras_to_vec: HDR, DV, bit depth, language codes, then the
remaining extra tags, deduplicated into BTreeSet order. -/
def extras_to_vec (parts : SceneNameParts) : List (List Char) :=
  let s0 : List (List Char) := []
  let s1 := if parts.hdr then setInsert "HDR".toList s0 else s0
  let s2 := if parts.dv then setInsert "DV".toList s1 else s1
  let s3 := match parts.bit_depth with
            | some bd => setInsert bd s2
            | none => s2
  let s4 := parts.languages.foldl (fun acc l => setInsert l acc) s3
  parts.extra_tags.foldl
    (fun acc e =>
      let el := upperStr e
      if (el = "HDR".toList && parts.hdr) ||
         (el = "DV".toList && parts.dv) ||
         (parts.bit_depth.isSome && containsSub "BIT".toList el) then acc
      else setInsert e acc)
    s4

/-- builder.rs assemble: the fixed segment order, joined by dots, with the
release group appended after a hyphen. -/
def assemble (parts : SceneNameParts) : List Char :=
  let segs : List (List Char) :=
    (if parts.title_tokens = [] then [] else [List.intercalate ".".toList parts.title_tokens]) ++
    (match parts.year with | some y => [(Nat.toDigits 10 y)] | none => []) ++
    (match parts.episode_tag with | some t => [t] | none => []) ++
    (match parts.language_tag with | some t => [t] | none => []) ++
    (match parts.resolution with | some r => [r] | none => []) ++
    (match parts.source with | some s => [s] | none => []) ++
    extras_to_vec parts ++
    (match parts.audio_codec with | some a => [a] | none => []) ++
    (match parts.audio_channels with | some ch => [ch] | none => []) ++
    (match parts.video_codec with | some v => [v] | none => [])
  let name := List.intercalate ".".toList segs
  match parts.release_group with
  | some g => name ++ ('-' :: g)
  | none => name

/-- builder.rs sanitize_scene_name: drop control characters and a fixed
blacklist of decorative symbols. -/
def sanitize_scene_name (s : List Char) : List Char :=
  s.filter (fun c =>
    !(rustIsControl c) &&
    !(c = '©' || c = '®' || c = '™' || c = '℗' || c = '§' || c = '¶' || c = '•' ||
      c = '†' || c = '‡' || c = '°' || c = 'º' || c = 'ª'))

/-- builder.rs propose_scene_name (movie synthesis). -/
def propose_scene_name (original : Option (List Char)) (hints : RadarrHints)
    (tech : TechnicalInfo) (validation : Option ValidationResult) : SceneDecision :=
  let parts0 := build_parts_from hints tech
  let parts := { parts0 with
    extra_tags := (salvage_special_tags original).foldl (fun acc t => setInsert t acc) parts0.extra_tags }
  let rebuilt := sanitize_scene_name (assemble parts)
  let reason := match validation with
    | some v => DecisionReason.Rebuilt v.issues
    | none => DecisionReason.Rebuilt []
  { chosen := rebuilt, reason := reason }

/-- builder.rs propose_episode_scene_name. -/
def propose_episode_scene_name (original : Option (List Char)) (hints : EpisodeHints)
    (tech : TechnicalInfo) : SceneDecision :=
  let parts0 := build_episode_parts_from hints tech
  let parts := { parts0 with
    extra_tags := (salvage_special_tags original).foldl (fun acc t => setInsert t acc) parts0.extra_tags }
  { chosen := sanitize_scene_name (assemble parts), reason := DecisionReason.Rebuilt [] }

/-- builder.rs propose_pack_scene_name. -/
def propose_pack_scene_name (original : Option (List Char)) (hints : PackHints)
    (tech : TechnicalInfo) : SceneDecision :=
  let parts0 := build_pack_parts_from hints tech
  let parts := { parts0 with
    extra_tags := (salvage_special_tags original).foldl (fun acc t => setInsert t acc) parts0.extra_tags }
  { chosen := sanitize_scene_name (assemble parts), reason := DecisionReason.Rebuilt [] }

/-- Rust char::is_whitespace, the Unicode White_Space property (a fixed
finite set, modelled in full). -/
def rustIsWhitespace (c : Char) : Bool :=
  c.toNat = 0x09 || c.toNat = 0x0A || c.toNat = 0x0B || c.toNat = 0x0C || c.toNat = 0x0D ||
  c.toNat = 0x20 || c.toNat = 0x85 || c.toNat = 0xA0 || c.toNat = 0x1680 ||
  (0x2000 ≤ c.toNat && c.toNat ≤ 0x200A) || c.toNat = 0x2028 || c.toNat = 0x2029 ||
  c.toNat = 0x202F || c.toNat = 0x205F || c.toNat = 0x3000

/-- Rust str::trim. -/
def rustTrim (s : List Char) : List Char :=
  ((s.dropWhile rustIsWhitespace).reverse.dropWhile rustIsWhitespace).reverse

/-- Rust str::eq_ignore_ascii_case. -/
def eqIgnoreAsciiCase (a b : List Char) : Bool :=
  lowerStr a == lowerStr b

/-- validator.rs looks_dot_separated: at least two dot characters. -/
def looks_dot_separated (name : List Char) : Bool :=
  2 ≤ (name.filter (fun c => c == '.')).length

/-- The word-character class of the regex word-boundary assertion.  The
regex crate uses the Unicode word class; the model covers the ASCII
fragment (where it is exact: ASCII word characters are exactly the ASCII
alphanumerics and the underscore) plus the alphanumeric fragments of
rustIsAlphanumeric.  Outside these fragments the model under-approximates
the Unicode class (a Cyrillic letter, say, is a word character to the
regex crate but not here), so universally quantified statements about
boundaries restrict the context characters to ASCII, where the model is
exact. -/
def isWordCharModel (c : Char) : Bool :=
  rustIsAlphanumeric c || c = '_'

/-- validator.rs YEAR_RE: an occurrence of (19|20) followed by two decimal
digits, anywhere in the string (no boundary assertions in the pattern). -/
def yearMatch : List Char → Bool
  | [] => false
  | a :: rest =>
    (match rest with
     | b :: c2 :: d :: _ =>
       ((a == '1' && b == '9') || (a == '2' && b == '0')) && c2.isDigit && d.isDigit
     | _ => false) || yearMatch rest

/-- Case-insensitive literal match at the head of the string, returning the
remainder.  Alternative strings are stored lowercase. -/
def ciAt : List Char → List Char → Option (List Char)
  | [], s => some s
  | _ :: _, [] => none
  | a :: as, c :: cs => if asciiLower c = a then ciAt as cs else none

/-- The left word-boundary test: position start or a non-word character
just before (every alternative starts with a word character). -/
def prevOk : Option Char → Bool
  | none => true
  | some c => !isWordCharModel c

/-- The right word-boundary test: string end or a non-word character next
(every alternative ends with a word character). -/
def restOk : List Char → Bool
  | [] => true
  | c :: _ => !isWordCharModel c

/-- Does one of the alternatives match at this position, followed by a
right word boundary. -/
def matchAltsAt (alts : List (List Char)) (s : List Char) : Bool :=
  alts.any fun alt =>
    match ciAt alt s with
    | some rest => restOk rest
    | none => false

/-- Scan of a case-insensitive word-bounded alternation over the string;
the Option Char argument is the character just before the current
position. -/
def boundaryScan (alts : List (List Char)) : Option Char → List Char → Bool
  | prev, [] => prevOk prev && matchAltsAt alts []
  | prev, c :: cs => (prevOk prev && matchAltsAt alts (c :: cs)) || boundaryScan alts (some c) cs

/-- is_match of a word-bounded case-insensitive alternation regex. -/
def reIsMatch (alts : List (List Char)) (s : List Char) : Bool :=
  boundaryScan alts none s

/-- validator.rs RESOLUTION_RE alternatives. -/
def RESOLUTION_ALTS : List (List Char) :=
  ["480p".toList, "576p".toList, "720p".toList, "1080p".toList, "2160p".toList,
   "4k".toList, "8k".toList]

/-- validator.rs SOURCE_RE alternatives, option groups expanded into the
finite language of the pattern. -/
def SOURCE_ALTS : List (List Char) :=
  ["amzn".toList, "amzn.web".toList, "amzn.webdl".toList, "amzn.web-dl".toList,
   "web".toList, "webdl".toList, "web-dl".toList, "webrip".toList,
   "bluray".toList, "blu-ray".toList, "blu ray".toList,
   "brrip".toList, "bdrip".toList, "hdlight".toList, "hdligh".toList, "mhd".toList]

/-- validator.rs VIDEO_CODEC_RE alternatives, option groups expanded. -/
def VIDEO_CODEC_ALTS : List (List Char) :=
  ["x265".toList, "x264".toList, "h265".toList, "h.265".toList,
   "h264".toList, "h.264".toList, "hevc".toList, "avc".toList]

/-- validator.rs validate_scene_name: empty check, then the accumulated
issue list in source push order. -/
def validate_scene_name (name : List Char) : ValidationResult :=
  let trimmed := rustTrim name
  let issues :=
    if trimmed = [] then [Issue.Empty]
    else
      (if eqIgnoreAsciiCase trimmed "unknown".toList then [Issue.IsUnknown] else []) ++
      (if !looks_dot_separated trimmed then [Issue.MissingDots] else []) ++
      (if !yearMatch trimmed then [Issue.MissingYear] else []) ++
      (if !reIsMatch RESOLUTION_ALTS trimmed then [Issue.MissingResolution] else []) ++
      (if !reIsMatch SOURCE_ALTS trimmed then [Issue.MissingSource] else []) ++
      (if !reIsMatch VIDEO_CODEC_ALTS trimmed then [Issue.MissingVideoCodec] else [])
  { valid := issues = [], issues := issues }

/-- validator.rs is_scene_name_valid. -/
def is_scene_name_valid (name : List Char) : Bool :=
  (validate_scene_name name).valid

/-- core/sonarr EpisodeResource (the fields the pipeline reads). -/
structure EpisodeResource where
  id : Int := 0
  season_number : Int := 0
  episode_number : Int := 0
  absolute_episode_number : Option Int := none
  title : Option (List Char) := none
  overview : Option (List Char) := none
  has_file : Bool := false
  monitored : Bool := false
deriving DecidableEq, Repr

/-- core/sonarr EpisodeFileResource.  The nested quality record is carried
flattened to the name the pipeline extracts from it. -/
structure EpisodeFileResource where
  id : Int := 0
  path : List Char := []
  season_number : Option Int := none
  scene_name : Option (List Char) := none
  release_group : Option (List Char) := none
  episode_ids : List Int := []
  quality_name : Option (List Char) := none
deriving DecidableEq, Repr

/-- The three sonarr configuration switches read by the pipeline. -/
structure SonarrCfg where
  only_complete_seasons : Bool := true
  create_integrale_pack_if_complete : Bool := false
  per_episode_for_incomplete_seasons : Bool := false
deriving DecidableEq, Repr

/-- sonarr.rs episode_by_id lookup: HashMap insert overwrites, so a lookup
returns the last record carrying the id. -/
def epById (eps : List EpisodeResource) (i : Int) : Option EpisodeResource :=
  eps.reverse.find? (fun e => e.id == i)

/-- The episodes_by_season key derived from one episode record
(sonarr.rs lines 50-59): seasons at most zero are skipped, and the season
number must fit in u16. -/
def seasonKeyOf (e : EpisodeResource) : Option Nat :=
  if 0 < e.season_number ∧ e.season_number ≤ 65535 then some e.season_number.toNat else none

/-- The id list stored under one season key of episodes_by_season, in push
order. -/
def seasonEpisodeIds (eps : List EpisodeResource) (s : Nat) : List Int :=
  (eps.filter (fun e => seasonKeyOf e == some s)).map (fun e => e.id)

/-- The key set of episodes_by_season, in ascending (BTreeSet-like) order. -/
def seasonKeys (eps : List EpisodeResource) : List Nat :=
  dedupConsec (List.insertionSort (· ≤ ·) (eps.filterMap seasonKeyOf))

/-- sonarr.rs lines 137-142: a season is complete when every episode id of
the season maps to a record that is unmonitored or has a file. -/
def seasonIsComplete (eps : List EpisodeResource) (s : Nat) : Bool :=
  (seasonEpisodeIds eps s).all fun eid =>
    match epById eps eid with
    | some ep => !ep.monitored || ep.has_file
    | none => false

/-- sonarr.rs complete_seasons (ascending order). -/
def complete_seasons (eps : List EpisodeResource) : List Nat :=
  (seasonKeys eps).filter (seasonIsComplete eps)

/-- sonarr.rs incomplete_seasons (ascending order). -/
def incomplete_seasons (eps : List EpisodeResource) : List Nat :=
  (seasonKeys eps).filter (fun s => !seasonIsComplete eps s)

/-- sonarr.rs line 150: series completeness. -/
def series_complete (eps : List EpisodeResource) : Bool :=
  incomplete_seasons eps = [] && seasonKeys eps ≠ []

/-- Ascending merge of two season sets, the BTreeSet union of
sonarr.rs lines 165-168. -/
def sortedUnion (a b : List Nat) : List Nat :=
  dedupConsec (List.insertionSort (· ≤ ·) (a ++ b))

/-- sonarr.rs lines 162-169: seasons eligible for packs. -/
def pack_seasons (cfg : SonarrCfg) (eps : List EpisodeResource) : List Nat :=
  if cfg.only_complete_seasons then complete_seasons eps
  else sortedUnion (complete_seasons eps) (incomplete_seasons eps)

/-- sonarr.rs lines 83-105: the season set one episode file maps to, from
the explicit season number and the seasons of its episode ids. -/
def fileSeasons (eps : List EpisodeResource) (f : EpisodeFileResource) : List Nat :=
  let own : List Nat :=
    match f.season_number with
    | some sn => if 0 < sn ∧ sn ≤ 65535 then [sn.toNat] else []
    | none => []
  let inferred : List Nat :=
    f.episode_ids.filterMap fun eid => (epById eps eid).bind seasonKeyOf
  dedupConsec (List.insertionSort (· ≤ ·) (own ++ inferred))

/-- sonarr.rs season_to_files entry for one season: the locally mappable
files whose season set is exactly this one season, in push order.  The
translate argument models try_translate_sonarr_path, an external path
mapping. -/
def season_to_files (translate : List Char → Option (List Char))
    (eps : List EpisodeResource) (files : List EpisodeFileResource) (s : Nat) :
    List EpisodeFileResource :=
  files.filter (fun f => (translate f.path).isSome && fileSeasons eps f == [s])

/-- One emitted synthesis unit of the pipeline: a season pack call or a
per-item call for one file path of a season. -/
inductive EmitEvent where
  | pack (s : Nat)
  | item (s : Nat) (path : List Char)
deriving DecidableEq, Repr

/-- sonarr.rs lines 179-204: the season-pack phase, one pack emission per
eligible season that has an entry in season_to_files. -/
def packPhase (translate : List Char → Option (List Char)) (cfg : SonarrCfg)
    (eps : List EpisodeResource) (files : List EpisodeFileResource) : List EmitEvent :=
  (pack_seasons cfg eps).filterMap fun s =>
    if season_to_files translate eps files s ≠ [] then some (EmitEvent.pack s) else none

/-- sonarr.rs lines 234-256: per-item emissions for one season, files
deduplicated by path with a seen set. -/
def itemsForSeason (s : Nat) : List EpisodeFileResource → List (List Char) → List EmitEvent
  | [], _ => []
  | f :: fs, seen =>
    if f.path ∈ seen then itemsForSeason s fs seen
    else EmitEvent.item s f.path :: itemsForSeason s fs (f.path :: seen)

/-- sonarr.rs lines 226-258: the per-item fallback phase over incomplete
seasons not already covered by a pack. -/
def itemPhase (translate : List Char → Option (List Char)) (cfg : SonarrCfg)
    (eps : List EpisodeResource) (files : List EpisodeFileResource) : List EmitEvent :=
  if !cfg.per_episode_for_incomplete_seasons then []
  else
    (incomplete_seasons eps).flatMap fun s =>
      if s ∈ pack_seasons cfg eps then []
      else itemsForSeason s (season_to_files translate eps files s) []

/-- The per-series emission trace of run_sonarr_pipeline: the pack phase,
then the per-item fallback phase.  The whole-series integrale pack is not a
season emission and is outside this trace. -/
def seriesEmitTrace (translate : List Char → Option (List Char)) (cfg : SonarrCfg)
    (eps : List EpisodeResource) (files : List EpisodeFileResource) : List EmitEvent :=
  packPhase translate cfg eps files ++ itemPhase translate cfg eps files

/-- app/common.rs apply_resolution_fallback, as a pure state transformer on
TechnicalInfo. -/
def apply_resolution_fallback (tech : TechnicalInfo) (quality : Option (List Char)) :
    TechnicalInfo :=
  if tech.resolution.isSome then tech
  else
    match quality with
    | none => tech
    | some q =>
      let ql := lowerStr q
      { tech with resolution :=
          if containsSub "2160p".toList ql || containsSub "4k".toList ql then some "2160p".toList
          else if containsSub "1440p".toList ql then some "1440p".toList
          else if containsSub "1080p".toList ql then some "1080p".toList
          else if containsSub "720p".toList ql then some "720p".toList
          else none }

/-- The episode records carrying one season number, the claim-level notion
of the episodes of a season. -/
def episodeRecordsOf (eps : List EpisodeResource) (s : Int) : List EpisodeResource :=
  eps.filter (fun e => e.season_number == s)

/-- Is an emission event a season-pack emission. -/
def isPackEvent : EmitEvent → Bool
  | EmitEvent.pack _ => true
  | EmitEvent.item _ _ => false

/-- Seasons of the pack emissions of a trace. -/
def packSeasonsOf (tr : List EmitEvent) : List Nat :=
  tr.filterMap fun e => match e with
  | EmitEvent.pack s => some s
  | EmitEvent.item _ _ => none

/-- Seasons of the per-item emissions of a trace. -/
def itemSeasonsOf (tr : List EmitEvent) : List Nat :=
  tr.filterMap fun e => match e with
  | EmitEvent.pack _ => none
  | EmitEvent.item s _ => some s

/-- Every character is a tokenizer word character or a dot. -/
def wordsOrDots (l : List Char) : Bool :=
  l.all fun c => rustIsAlphanumeric c || c = '.'

/-- No two adjacent dots. -/
def noDoubleDot : List Char → Bool
  | [] => true
  | [_] => true
  | a :: b :: rest => !(a = '.' && b = '.') && noDoubleDot (b :: rest)

/-- A season-zero episode record that is monitored and has a file (used as
a concrete classification input). -/
def specialEp : EpisodeResource :=
  { id := 1, season_number := 0, has_file := true, monitored := true }

/-- A season-one episode record with a file (concrete input). -/
def s1EpWithFile : EpisodeResource :=
  { id := 1, season_number := 1, monitored := true, has_file := true }

/-- A season-one episode record missing its file (concrete input). -/
def s1EpNoFile : EpisodeResource :=
  { id := 2, season_number := 1, monitored := true, has_file := false }

/-!  Theorems. -/

/-- C2: the validator ground truth.  The canonical Rebel Moon name is valid
with no issues; the literal Unknown is invalid with the IsUnknown issue;
the empty string is invalid with exactly the Empty issue; the Fight Club
free-text name is invalid with exactly the MissingDots and MissingSource
issues. -/
theorem c2_validator_ground_truth :
    validate_scene_name "Rebel.Moon.Part.One.A.Child.of.Fire.2023.MULTi.1080p.WEB.x264-FW".toList =
      ValidationResult.mk true [] ∧
    ((validate_scene_name "Unknown".toList).valid = false ∧
      Issue.IsUnknown ∈ (validate_scene_name "Unknown".toList).issues) ∧
    validate_scene_name "".toList = ValidationResult.mk false [Issue.Empty] ∧
    ((validate_scene_name "Fight Club (1999) - VO-VF - 1080p - x265".toList).valid = false ∧
      (validate_scene_name "Fight Club (1999) - VO-VF - 1080p - x265".toList).issues =
        [Issue.MissingDots, Issue.MissingSource]) := by
  refine ⟨by decide, ⟨by decide, by decide⟩, by decide, ⟨by decide, by decide⟩⟩

/-- C9: the movie builder is total and always rebuilds.  The decision
reason is Rebuilt carrying exactly the issues of the caller-supplied
validation (empty when none is supplied), and the supplied validation has
no effect on the chosen name. -/
theorem c9_rebuilt_reason_and_validation_inert :
    ∀ (original : Option (List Char)) (hints : RadarrHints) (tech : TechnicalInfo)
      (validation : Option ValidationResult),
      (propose_scene_name original hints tech validation).reason =
        DecisionReason.Rebuilt (match validation with
          | some v => v.issues
          | none => []) ∧
      (propose_scene_name original hints tech validation).chosen =
        (propose_scene_name original hints tech none).chosen := by
  intro original hints tech validation
  cases validation <;> exact ⟨rfl, rfl⟩

/-- C10: the resolution fallback never overwrites a present resolution and
touches no field of TechnicalInfo other than resolution. -/
theorem c10_resolution_fallback_frame :
    ∀ (tech : TechnicalInfo) (quality : Option (List Char)),
      (tech.resolution.isSome = true → apply_resolution_fallback tech quality = tech) ∧
      ((apply_resolution_fallback tech quality).video_codec = tech.video_codec ∧
       (apply_resolution_fallback tech quality).bit_depth = tech.bit_depth ∧
       (apply_resolution_fallback tech quality).hdr = tech.hdr ∧
       (apply_resolution_fallback tech quality).dv = tech.dv ∧
       (apply_resolution_fallback tech quality).audio_codec = tech.audio_codec ∧
       (apply_resolution_fallback tech quality).audio_channels = tech.audio_channels ∧
       (apply_resolution_fallback tech quality).audio_languages = tech.audio_languages ∧
       (apply_resolution_fallback tech quality).subtitle_languages = tech.subtitle_languages ∧
       (apply_resolution_fallback tech quality).has_vfi = tech.has_vfi ∧
       (apply_resolution_fallback tech quality).container = tech.container) := by
  intro tech quality
  constructor
  · intro h
    simp [apply_resolution_fallback, h]
  · unfold apply_resolution_fallback
    split
    · simp
    · cases quality <;> simp

/-- C10 witness: at a technical record carrying 1080p and a quality string
implying 720p, the fallback is the identity. -/
theorem c10_witness :
    (({ resolution := some "1080p".toList } : TechnicalInfo).resolution.isSome = true) ∧
    apply_resolution_fallback { resolution := some "1080p".toList } (some "720p".toList) =
      { resolution := some "1080p".toList } :=
  ⟨rfl, (c10_resolution_fallback_frame { resolution := some "1080p".toList }
    (some "720p".toList)).1 rfl⟩

/-- C1 counterexample: the claim says exactly one of the year field and the
episode-tag field is populated per call, never both and never neither; but
a pack call whose hints carry a year populates both fields at once. -/
theorem c1_counterexample :
    ((build_pack_parts_from
        { title := "Show".toList, year := some 1999, pack_tag := "S01".toList }
        {}).year.isSome = true) ∧
    ((build_pack_parts_from
        { title := "Show".toList, year := some 1999, pack_tag := "S01".toList }
        {}).episode_tag.isSome = true) := by
  refine ⟨by decide, by decide⟩

/-- C1 amended: the movie variant copies the year of the hints and never
populates the episode tag; the episode variant populates the episode tag
exactly as episode_tag_from_hints derives it and never the year; the pack
variant always populates the episode tag and copies the year of the hints,
so a pack call with a year populates both fields and a movie call without a
year populates neither. -/
theorem c1_amended_year_episode_tag_population :
    (∀ (h : RadarrHints) (t : TechnicalInfo),
      (build_parts_from h t).episode_tag = none ∧ (build_parts_from h t).year = h.year) ∧
    (∀ (h : EpisodeHints) (t : TechnicalInfo),
      (build_episode_parts_from h t).year = none ∧
      (build_episode_parts_from h t).episode_tag = episode_tag_from_hints h) ∧
    (∀ (h : PackHints) (t : TechnicalInfo),
      (build_pack_parts_from h t).year = h.year ∧
      (build_pack_parts_from h t).episode_tag = some (normalize_tokens_to_scene h.pack_tag)) :=
  ⟨fun _ _ => ⟨rfl, rfl⟩, fun _ _ => ⟨rfl, rfl⟩, fun _ _ => ⟨rfl, rfl⟩⟩

/-- C3: in every builder variant, when the technical probe supplies a
resolution and the quality string implies one, the assembled parts carry
the probe resolution, and when the two disagree the source is omitted. -/
theorem c3_probe_resolution_precedence :
    (∀ (h : RadarrHints) (t : TechnicalInfo) (tr ir : List Char),
      t.resolution = some tr →
      infer_resolution_from_quality h.quality = some ir →
      (build_parts_from h t).resolution = some tr ∧
      (tr ≠ ir → (build_parts_from h t).source = none)) ∧
    (∀ (h : EpisodeHints) (t : TechnicalInfo) (tr ir : List Char),
      t.resolution = some tr →
      infer_resolution_from_quality h.quality = some ir →
      (build_episode_parts_from h t).resolution = some tr ∧
      (tr ≠ ir → (build_episode_parts_from h t).source = none)) ∧
    (∀ (h : PackHints) (t : TechnicalInfo) (tr ir : List Char),
      t.resolution = some tr →
      infer_resolution_from_quality h.quality = some ir →
      (build_pack_parts_from h t).resolution = some tr ∧
      (tr ≠ ir → (build_pack_parts_from h t).source = none)) := by
  refine ⟨?_, ?_, ?_⟩ <;>
  · intro h t tr ir hres hinf
    constructor
    · simp [build_parts_from, build_episode_parts_from, build_pack_parts_from,
        resolutionMismatch, hres, hinf, Option.or]
    · intro hne
      simp [build_parts_from, build_episode_parts_from, build_pack_parts_from,
        resolutionMismatch, hres, hinf, hne]

/-- C3 witness: probe resolution 1080p with a quality string implying 720p
yields parts carrying 1080p and no source. -/
theorem c3_witness :
    ((({ resolution := some "1080p".toList } : TechnicalInfo)).resolution =
      some "1080p".toList) ∧
    (infer_resolution_from_quality (some "WEBDL 720p".toList) = some "720p".toList) ∧
    ("1080p".toList ≠ "720p".toList) ∧
    (build_parts_from { title := "My Movie".toList, quality := some "WEBDL 720p".toList }
        { resolution := some "1080p".toList }).resolution = some "1080p".toList ∧
    (build_parts_from { title := "My Movie".toList, quality := some "WEBDL 720p".toList }
        { resolution := some "1080p".toList }).source = none := by
  have h := c3_probe_resolution_precedence.1
    { title := "My Movie".toList, quality := some "WEBDL 720p".toList }
    { resolution := some "1080p".toList } "1080p".toList "720p".toList rfl (by decide)
  exact ⟨rfl, by decide, by decide, h.1, h.2 (by decide)⟩

/-- Membership is invariant under consecutive deduplication. -/
theorem mem_dedupConsec : ∀ (l : List Nat) (x : Nat), x ∈ dedupConsec l ↔ x ∈ l := by
  intro l
  induction l with
  | nil => intro x; simp [dedupConsec]
  | cons a rest ih =>
    intro x
    cases rest with
    | nil => simp [dedupConsec]
    | cons b rs =>
      simp only [dedupConsec]
      split
      · rename_i hab
        subst hab
        rw [ih x]
        simp
      · simp [List.mem_cons, ih x]

/-- Consecutive deduplication of a weakly sorted list is strictly sorted. -/
theorem sorted_lt_dedupConsec :
    ∀ l : List Nat, l.Sorted (· ≤ ·) → (dedupConsec l).Sorted (· < ·) := by
  intro l
  induction l with
  | nil => intro _; simp [dedupConsec]
  | cons a rest ih =>
    intro hs
    have hs' : rest.Sorted (· ≤ ·) := hs.of_cons
    cases rest with
    | nil => simp [dedupConsec]
    | cons b rs =>
      simp only [dedupConsec]
      split
      · rename_i hab
        subst hab
        exact ih hs'
      · rename_i hab
        rw [List.sorted_cons]
        refine ⟨?_, ih hs'⟩
        intro y hy
        have hyb : y ∈ b :: rs := (mem_dedupConsec _ y).mp hy
        have hab' : a ≤ b := List.rel_of_sorted_cons hs b (by simp)
        have hlt : a < b := lt_of_le_of_ne hab' hab
        rcases List.mem_cons.mp hyb with h | h
        · exact h ▸ hlt
        · exact lt_of_lt_of_le hlt (List.rel_of_sorted_cons hs' y h)

/-- Consecutive deduplication preserves emptiness in both directions. -/
theorem dedupConsec_eq_nil_iff : ∀ l : List Nat, dedupConsec l = [] ↔ l = [] := by
  intro l
  induction l with
  | nil => simp [dedupConsec]
  | cons a rest ih =>
    cases rest with
    | nil => simp [dedupConsec]
    | cons b rs =>
      simp only [dedupConsec]
      split
      · rename_i hab
        subst hab
        rw [ih]
        simp
      · simp

/-- C4: the episode tag of episode hints.  When absolute numbers exist the
tag is the concatenation of three-digit E tokens over a strictly ascending
enumeration of exactly the hinted absolute numbers, whatever the season and
episode fields hold; otherwise with a season and at least one episode
number it is the two-digit S token followed by two-digit E tokens over a
strictly ascending enumeration of exactly the hinted episode numbers; and
otherwise there is no tag. -/
theorem c4_episode_tag_selection :
    ∀ h : EpisodeHints,
      (h.absolute_episode_numbers ≠ [] →
        ∃ ns : List Nat, ns.Sorted (· < ·) ∧
          (∀ n, n ∈ ns ↔ n ∈ h.absolute_episode_numbers) ∧
          episode_tag_from_hints h = some (joinTags 3 ns)) ∧
      (h.absolute_episode_numbers = [] →
        ∀ s, h.season_number = some s → h.episode_numbers ≠ [] →
          ∃ ns : List Nat, ns.Sorted (· < ·) ∧
            (∀ n, n ∈ ns ↔ n ∈ h.episode_numbers) ∧
            episode_tag_from_hints h = some (('S' :: padNum 2 s) ++ joinTags 2 ns)) ∧
      (h.absolute_episode_numbers = [] →
        (h.season_number = none ∨ h.episode_numbers = []) →
        episode_tag_from_hints h = none) := by
  intro h
  refine ⟨?_, ?_, ?_⟩
  · intro habs
    refine ⟨dedupConsec (List.insertionSort (· ≤ ·) h.absolute_episode_numbers), ?_, ?_, ?_⟩
    · exact sorted_lt_dedupConsec _ (List.sorted_insertionSort _ _)
    · intro n
      rw [mem_dedupConsec, (List.perm_insertionSort _ _).mem_iff]
    · simp [episode_tag_from_hints, habs]
  · intro habs s hseason heps
    refine ⟨dedupConsec (List.insertionSort (· ≤ ·) h.episode_numbers), ?_, ?_, ?_⟩
    · exact sorted_lt_dedupConsec _ (List.sorted_insertionSort _ _)
    · intro n
      rw [mem_dedupConsec, (List.perm_insertionSort _ _).mem_iff]
    · simp [episode_tag_from_hints, habs, hseason, heps]
  · intro habs hcase
    rcases hcase with hnone | hnil
    · simp [episode_tag_from_hints, habs, hnone]
    · cases hsn : h.season_number <;> simp [episode_tag_from_hints, habs, hsn, hnil]

/-- C4 witness: absolute number 12 yields tag E012 despite season and
episode fields being set, and season 3 with episodes 2 and 1 yields tag
S03E01E02. -/
theorem c4_witness :
    (([12] : List Nat) ≠ [] ∧
      ∃ ns : List Nat, ns.Sorted (· < ·) ∧
        (∀ n, n ∈ ns ↔ n ∈ ([12] : List Nat)) ∧
        episode_tag_from_hints
          { season_number := some 3, episode_numbers := [1, 2],
            absolute_episode_numbers := [12] } = some (joinTags 3 ns)) ∧
    (episode_tag_from_hints
        { season_number := some 3, episode_numbers := [2, 1],
          absolute_episode_numbers := [] } = some "S03E01E02".toList) := by
  constructor
  · refine ⟨by decide, ?_⟩
    exact (c4_episode_tag_selection
      { season_number := some 3, episode_numbers := [1, 2],
        absolute_episode_numbers := [12] }).1 (by decide)
  · decide

/-- Every event of the pack phase is a pack emission of an eligible
season. -/
theorem packPhase_shape (translate : List Char → Option (List Char)) (cfg : SonarrCfg)
    (eps : List EpisodeResource) (files : List EpisodeFileResource) :
    ∀ e ∈ packPhase translate cfg eps files,
      ∃ s, e = EmitEvent.pack s ∧ s ∈ pack_seasons cfg eps := by
  intro e he
  rcases List.mem_filterMap.mp he with ⟨s, hs, hf⟩
  by_cases hne : season_to_files translate eps files s ≠ []
  · rw [if_pos hne] at hf
    exact ⟨s, (Option.some_inj.mp hf).symm, hs⟩
  · rw [if_neg hne] at hf
    cases hf

/-- Every event produced for one season of the item phase is a per-item
emission of that season. -/
theorem itemsForSeason_shape (s : Nat) :
    ∀ (fs : List EpisodeFileResource) (seen : List (List Char)) (e : EmitEvent),
      e ∈ itemsForSeason s fs seen → ∃ p, e = EmitEvent.item s p := by
  intro fs
  induction fs with
  | nil => intro seen e he; cases he
  | cons f ft ih =>
    intro seen e he
    simp only [itemsForSeason] at he
    by_cases hseen : f.path ∈ seen
    · rw [if_pos hseen] at he
      exact ih seen e he
    · rw [if_neg hseen] at he
      rcases List.mem_cons.mp he with h | h
      · exact ⟨f.path, h⟩
      · exact ih (f.path :: seen) e h

/-- Every event of the item phase is a per-item emission of a season that
is not pack-eligible. -/
theorem itemPhase_shape (translate : List Char → Option (List Char)) (cfg : SonarrCfg)
    (eps : List EpisodeResource) (files : List EpisodeFileResource) :
    ∀ e ∈ itemPhase translate cfg eps files,
      ∃ s p, e = EmitEvent.item s p ∧ s ∉ pack_seasons cfg eps := by
  intro e he
  simp only [itemPhase] at he
  split at he
  · cases he
  · rcases List.mem_flatMap.mp he with ⟨s, _, hin⟩
    by_cases hmem : s ∈ pack_seasons cfg eps
    · rw [if_pos hmem] at hin
      cases hin
    · rw [if_neg hmem] at hin
      rcases itemsForSeason_shape s _ _ e hin with ⟨p, hp⟩
      exact ⟨s, p, hp, hmem⟩

/-- C7: in one series run, no season is emitted both as a season pack and
as per-item files, and the trace is exactly its pack emissions followed by
its per-item emissions, so every pack emission precedes every per-item
emission. -/
theorem c7_pack_precedes_items :
    ∀ (translate : List Char → Option (List Char)) (cfg : SonarrCfg)
      (eps : List EpisodeResource) (files : List EpisodeFileResource),
      ((packSeasonsOf (seriesEmitTrace translate cfg eps files)).all
        (fun s => !(itemSeasonsOf (seriesEmitTrace translate cfg eps files)).contains s)) = true ∧
      seriesEmitTrace translate cfg eps files =
        (seriesEmitTrace translate cfg eps files).filter isPackEvent ++
        (seriesEmitTrace translate cfg eps files).filter (fun e => !isPackEvent e) := by
  intro translate cfg eps files
  have hpp : ∀ e ∈ packPhase translate cfg eps files, isPackEvent e = true := by
    intro e he
    rcases packPhase_shape translate cfg eps files e he with ⟨s, rfl, _⟩
    rfl
  have hip : ∀ e ∈ itemPhase translate cfg eps files, isPackEvent e = false := by
    intro e he
    rcases itemPhase_shape translate cfg eps files e he with ⟨s, p, rfl, _⟩
    rfl
  constructor
  · rw [List.all_eq_true]
    intro s hs
    rcases List.mem_filterMap.mp hs with ⟨e, he, hfe⟩
    have hepack : e = EmitEvent.pack s := by
      cases e with
      | pack s2 => cases hfe; rfl
      | item s2 p => cases hfe
    subst hepack
    have hsin : s ∈ pack_seasons cfg eps := by
      rcases List.mem_append.mp he with h | h
      · rcases packPhase_shape translate cfg eps files _ h with ⟨s2, he2, hin⟩
        cases he2
        exact hin
      · have hcontra := hip _ h
        simp [isPackEvent] at hcontra
    simp only [Bool.not_eq_true']
    rw [← Bool.not_eq_true]
    intro hcontains
    have hsitem : s ∈ itemSeasonsOf (seriesEmitTrace translate cfg eps files) := by
      simpa [List.contains] using hcontains
    rcases List.mem_filterMap.mp hsitem with ⟨e2, he2, hfe2⟩
    have : ∃ p, e2 = EmitEvent.item s p := by
      cases e2 with
      | pack s3 => cases hfe2
      | item s3 p => cases hfe2; exact ⟨p, rfl⟩
    rcases this with ⟨p, rfl⟩
    rcases List.mem_append.mp he2 with h | h
    · have hcontra := hpp _ h
      simp [isPackEvent] at hcontra
    · rcases itemPhase_shape translate cfg eps files _ h with ⟨s3, p3, he3, hnotin⟩
      cases he3
      exact hnotin hsin
  · unfold seriesEmitTrace
    rw [List.filter_append, List.filter_append]
    rw [List.filter_eq_self.mpr hpp]
    rw [show (itemPhase translate cfg eps files).filter isPackEvent = [] from
      List.filter_eq_nil_iff.mpr (by intro a ha; simp [hip a ha])]
    rw [show (packPhase translate cfg eps files).filter (fun e => !isPackEvent e) = [] from
      List.filter_eq_nil_iff.mpr (by intro a ha; simp [hpp a ha])]
    rw [List.filter_eq_self.mpr (by intro a ha; simp [hip a ha])]
    simp

/-- Season-key membership characterisation. -/
theorem mem_seasonKeys (eps : List EpisodeResource) (s0 : Nat) :
    s0 ∈ seasonKeys eps ↔ ∃ e ∈ eps, seasonKeyOf e = some s0 := by
  unfold seasonKeys
  rw [mem_dedupConsec, (List.perm_insertionSort _ _).mem_iff, List.mem_filterMap]

/-- With pairwise distinct episode ids, the id lookup of an episode record
returns that record. -/
theorem epById_self (eps : List EpisodeResource) (e : EpisodeResource)
    (hnodup : (eps.map (fun x => x.id)).Nodup) (he : e ∈ eps) :
    epById eps e.id = some e := by
  unfold epById
  have hmem : e ∈ eps.reverse := List.mem_reverse.mpr he
  have hsome : (eps.reverse.find? (fun x => x.id == e.id)).isSome := by
    rw [List.find?_isSome]
    exact ⟨e, hmem, by simp⟩
  rcases Option.isSome_iff_exists.mp hsome with ⟨x, hx⟩
  have hxid : x.id = e.id := by
    have := List.find?_some hx
    simpa using this
  have hxin : x ∈ eps := List.mem_reverse.mp (List.mem_of_find?_eq_some hx)
  have hxe : x = e := List.inj_on_of_nodup_map hnodup hxin he hxid
  rw [hx, hxe]

/-- For a season number in the u16 range, the id vector stored for its
season key lists exactly the ids of its episode records. -/
theorem seasonEpisodeIds_eq (eps : List EpisodeResource) (s : Int)
    (h0 : 0 < s) (h65 : s ≤ 65535) :
    seasonEpisodeIds eps s.toNat = (episodeRecordsOf eps s).map (fun e => e.id) := by
  unfold seasonEpisodeIds episodeRecordsOf
  congr 1
  apply List.filter_congr
  intro e _
  rw [Bool.eq_iff_iff]
  simp only [seasonKeyOf, beq_iff_eq]
  constructor
  · intro hk
    split at hk
    · rename_i hcond
      have h1 : e.season_number.toNat = s.toNat := by simpa using hk
      omega
    · cases hk
  · intro hk
    rw [if_pos (by omega)]
    simp only [Option.some_inj]
    omega

/-- The u16-range condition on a season key, phrased on the record. -/
theorem seasonKeyOf_eq_some_iff (e : EpisodeResource) (t : Nat) :
    seasonKeyOf e = some t ↔ (0 < e.season_number ∧ e.season_number ≤ 65535 ∧
      e.season_number = (t : Int)) := by
  unfold seasonKeyOf
  split
  · rename_i hcond
    simp only [Option.some_inj]
    constructor
    · intro h
      refine ⟨hcond.1, hcond.2, ?_⟩
      omega
    · intro h
      omega
  · rename_i hcond
    simp only [false_iff, reduceCtorEq]
    intro h
    exact hcond ⟨h.1, h.2.1⟩

/-- C6 counterexample: the claim classifies every season having episode
records, but season zero is excluded from classification even when all of
its episodes have files, and a series whose only records sit in season zero
is not series-complete although the incomplete set is empty. -/
theorem c6_counterexample :
    (episodeRecordsOf [specialEp] 0 ≠ []) ∧
    (∀ e ∈ episodeRecordsOf [specialEp] 0, e.has_file = true) ∧
    ((0 : Nat) ∉ complete_seasons [specialEp]) ∧
    incomplete_seasons [specialEp] = [] ∧
    series_complete [specialEp] = false := by
  refine ⟨by decide, by decide, by decide, by decide, by decide⟩

/-- C6 amended: restricted to positive season numbers in the u16 range and
to inputs whose episode ids are pairwise distinct, a season with episode
records is classified complete exactly when every episode record of the
season is unmonitored or has a file, and incomplete exactly otherwise; a
season without records is classified neither way; and the series is
series-complete exactly when the incomplete set is empty and some record
carries a positive u16 season number. -/
theorem c6_amended_season_classification :
    ∀ (eps : List EpisodeResource) (s : Int) (t : Nat),
      (eps.map (fun e => e.id)).Nodup →
      ((0 < s → s ≤ 65535 → episodeRecordsOf eps s ≠ [] →
        ((s.toNat ∈ complete_seasons eps ↔
          ∀ e ∈ episodeRecordsOf eps s, e.monitored = false ∨ e.has_file = true) ∧
         (s.toNat ∈ incomplete_seasons eps ↔
          ¬ ∀ e ∈ episodeRecordsOf eps s, e.monitored = false ∨ e.has_file = true))) ∧
       (episodeRecordsOf eps (t : Int) = [] →
        t ∉ complete_seasons eps ∧ t ∉ incomplete_seasons eps) ∧
       (series_complete eps = true ↔
        (incomplete_seasons eps = [] ∧
         ∃ e ∈ eps, 0 < e.season_number ∧ e.season_number ≤ 65535))) := by
  intro eps s t hnodup
  have hcompleteIff : ∀ s1 : Int, 0 < s1 → s1 ≤ 65535 →
      (seasonIsComplete eps s1.toNat = true ↔
        ∀ e ∈ episodeRecordsOf eps s1, e.monitored = false ∨ e.has_file = true) := by
    intro s1 h0 h65
    unfold seasonIsComplete
    rw [seasonEpisodeIds_eq eps s1 h0 h65, List.all_eq_true]
    constructor
    · intro h e he
      have hid : e.id ∈ (episodeRecordsOf eps s1).map (fun e => e.id) :=
        List.mem_map.mpr ⟨e, he, rfl⟩
      have := h e.id hid
      have heps : e ∈ eps := List.mem_of_mem_filter he
      rw [epById_self eps e hnodup heps] at this
      simpa [Bool.or_eq_true, Bool.not_eq_true'] using this
    · intro h i hi
      rcases List.mem_map.mp hi with ⟨e, he, rfl⟩
      have heps : e ∈ eps := List.mem_of_mem_filter he
      rw [epById_self eps e hnodup heps]
      have := h e he
      simpa [Bool.or_eq_true, Bool.not_eq_true'] using this
  refine ⟨?_, ?_, ?_⟩
  · intro h0 h65 hne
    have hkey : s.toNat ∈ seasonKeys eps := by
      rcases List.exists_mem_of_ne_nil _ hne with ⟨e, he⟩
      have heps : e ∈ eps := List.mem_of_mem_filter he
      have hsn : e.season_number = s := by
        have := List.of_mem_filter he
        simpa using this
      refine (mem_seasonKeys eps s.toNat).mpr ⟨e, heps, ?_⟩
      rw [seasonKeyOf_eq_some_iff]
      refine ⟨by omega, by omega, by omega⟩
    constructor
    · unfold complete_seasons
      rw [List.mem_filter]
      rw [hcompleteIff s h0 h65]
      simp [hkey]
    · unfold incomplete_seasons
      rw [List.mem_filter]
      rw [show ((!seasonIsComplete eps s.toNat) = true ↔
          ¬ seasonIsComplete eps s.toNat = true) from by simp]
      rw [hcompleteIff s h0 h65]
      simp [hkey]
  · intro hempty
    have hkeyfree : t ∉ seasonKeys eps := by
      intro hk
      rcases (mem_seasonKeys eps t).mp hk with ⟨e, he, hkey⟩
      rcases (seasonKeyOf_eq_some_iff e t).mp hkey with ⟨h1, h2, h3⟩
      have : e ∈ episodeRecordsOf eps (t : Int) :=
        List.mem_filter.mpr ⟨he, by simp [h3]⟩
      rw [hempty] at this
      cases this
    constructor
    · intro hmem
      exact hkeyfree (List.mem_of_mem_filter hmem)
    · intro hmem
      exact hkeyfree (List.mem_of_mem_filter hmem)
  · unfold series_complete
    rw [Bool.and_eq_true, decide_eq_true_eq, decide_eq_true_eq]
    constructor
    · intro ⟨h1, h2⟩
      refine ⟨h1, ?_⟩
      have : seasonKeys eps ≠ [] := h2
      rcases List.exists_mem_of_ne_nil _ this with ⟨s0, hs0⟩
      rcases (mem_seasonKeys eps s0).mp hs0 with ⟨e, he, hkey⟩
      rcases (seasonKeyOf_eq_some_iff e s0).mp hkey with ⟨ha, hb, _⟩
      exact ⟨e, he, ha, hb⟩
    · intro ⟨h1, e, he, ha, hb⟩
      refine ⟨h1, ?_⟩
      have hkey : seasonKeyOf e = some e.season_number.toNat := by
        rw [seasonKeyOf_eq_some_iff]
        refine ⟨ha, hb, by omega⟩
      have : e.season_number.toNat ∈ seasonKeys eps :=
        (mem_seasonKeys eps _).mpr ⟨e, he, hkey⟩
      intro hnil
      rw [hnil] at this
      cases this

/-- C6 amended witness: a nodup two-episode season 1, one episode
monitored without a file, classifies incomplete and blocks series
completeness. -/
theorem c6_witness :
    (([s1EpWithFile, s1EpNoFile].map (fun e => e.id)).Nodup ∧
     (0 : Int) < 1 ∧ (1 : Int) ≤ 65535 ∧
     episodeRecordsOf [s1EpWithFile, s1EpNoFile] 1 ≠ []) ∧
    ((1 : Int).toNat ∈ incomplete_seasons [s1EpWithFile, s1EpNoFile] ↔
     ¬ ∀ e ∈ episodeRecordsOf [s1EpWithFile, s1EpNoFile] 1,
        e.monitored = false ∨ e.has_file = true) := by
  refine ⟨⟨by decide, by decide, by decide, by decide⟩, ?_⟩
  exact ((c6_amended_season_classification [s1EpWithFile, s1EpNoFile] 1 0
    (by decide)).1 (by decide) (by decide) (by decide)).2

/-- A lowercase-fixed alternative matches itself at the head of a string. -/
theorem ciAt_self : ∀ (alt rest : List Char), (∀ c ∈ alt, asciiLower c = c) →
    ciAt alt (alt ++ rest) = some rest := by
  intro alt
  induction alt with
  | nil => intro rest _; rfl
  | cons a as ih =>
    intro rest hfix
    simp only [List.cons_append, ciAt]
    rw [if_pos (hfix a (by simp))]
    exact ih rest (fun c hc => hfix c (by simp [hc]))

/-- A listed lowercase-fixed alternative at the head of the string with a
right boundary makes the alternation match at this position. -/
theorem matchAltsAt_of (alts : List (List Char)) (alt rest : List Char)
    (halt : alt ∈ alts) (hfix : ∀ c ∈ alt, asciiLower c = c)
    (hrest : restOk rest = true) :
    matchAltsAt alts (alt ++ rest) = true := by
  unfold matchAltsAt
  rw [List.any_eq_true]
  refine ⟨alt, halt, ?_⟩
  rw [ciAt_self alt rest hfix]
  exact hrest

/-- A match found further right is a match of the whole scan. -/
theorem boundaryScan_extend (alts : List (List Char)) (prev : Option Char) (c : Char)
    (s : List Char) (h : boundaryScan alts (some c) s = true) :
    boundaryScan alts prev (c :: s) = true := by
  unfold boundaryScan
  rw [h]
  simp

/-- The scan finds a boundary match placed after an arbitrary left
context. -/
theorem boundaryScan_append (alts : List (List Char)) :
    ∀ (pre : List Char) (prev : Option Char) (rest : List Char),
      (pre = [] → prevOk prev = true) →
      (∀ c, pre.getLast? = some c → prevOk (some c) = true) →
      matchAltsAt alts rest = true →
      boundaryScan alts prev (pre ++ rest) = true := by
  intro pre
  induction pre with
  | nil =>
    intro prev rest h1 _ hm
    cases rest with
    | nil =>
      show boundaryScan alts prev [] = true
      unfold boundaryScan
      rw [h1 rfl, hm]
      rfl
    | cons c cs =>
      show boundaryScan alts prev (c :: cs) = true
      unfold boundaryScan
      rw [h1 rfl, hm]
      simp
  | cons p ps ih =>
    intro prev rest h1 h2 hm
    show boundaryScan alts prev (p :: (ps ++ rest)) = true
    apply boundaryScan_extend
    apply ih (some p) rest ?_ ?_ hm
    · intro hnil
      subst hnil
      exact h2 p rfl
    · intro c hc
      apply h2 c
      cases ps with
      | nil => cases hc
      | cons q qs => rw [List.getLast?_cons_cons]; exact hc

/-- Dropping a prefix-scan stops before a block whose head fails the
predicate. -/
theorem dropWhile_append_stop (p : Char → Bool) :
    ∀ (pre rest : List Char), (∀ c, rest.head? = some c → p c = false) →
      List.dropWhile p (pre ++ rest) = List.dropWhile p pre ++ rest := by
  intro pre
  induction pre with
  | nil =>
    intro rest hr
    cases rest with
    | nil => rfl
    | cons c cs =>
      simp only [List.nil_append, List.dropWhile]
      rw [hr c rfl]
  | cons a as ih =>
    intro rest hr
    simp only [List.cons_append, List.dropWhile]
    cases hpa : p a with
    | true => exact ih rest hr
    | false => rfl

/-- The last element survives an append whose right part is nonempty. -/
theorem getLast?_append_right {α : Type} (a b : List α) (hb : b ≠ []) :
    (a ++ b).getLast? = b.getLast? := by
  induction a with
  | nil => rfl
  | cons x xs ih =>
    cases hxb : xs ++ b with
    | nil =>
      exfalso
      rcases List.append_eq_nil.mp hxb with ⟨_, h2⟩
      exact hb h2
    | cons y ys =>
      show (x :: (xs ++ b)).getLast? = b.getLast?
      rw [hxb, List.getLast?_cons_cons, ← hxb, ih]

/-- The head survives an append whose left part is nonempty. -/
theorem head?_append_left {α : Type} (a b : List α) (ha : a ≠ []) :
    (a ++ b).head? = a.head? := by
  cases a with
  | nil => cases ha rfl
  | cons x xs => rfl

/-- Membership in a conditional singleton forces equality. -/
theorem mem_ite_singleton {P : Prop} [Decidable P] {x y : Issue}
    (h : x ∈ (if P then [y] else [])) : x = y := by
  split at h
  · simpa using h
  · cases h

/-- C5 counterexample: 1440p is claimed to be in the recognized resolution
set, but the validator regex does not list it: a nonempty name carrying
1440p as a standalone token is still reported MissingResolution. -/
theorem c5_counterexample :
    ("Movie.1440p.x264".toList ≠ []) ∧
    "Movie.1440p.x264".toList = "Movie.".toList ++ "1440p".toList ++ ".x264".toList ∧
    isWordCharModel '.' = false ∧
    Issue.MissingResolution ∈ (validate_scene_name "Movie.1440p.x264".toList).issues := by
  refine ⟨by decide, by decide, by decide, by decide⟩

/-- C5 amended: for every ASCII input that carries, as a standalone token
(word boundaries on both sides), one of 480p, 576p, 720p, 1080p, 2160p,
the validator does not report MissingResolution (1440p is dropped from
the claimed set: the regex does not recognize it).  The context is
restricted to ASCII characters because the word-boundary model is exact
there, while the Unicode word class of the regex crate is modelled only
fragmentarily. -/
theorem c5_amended_standalone_resolution :
    ∀ (pre post tok : List Char),
      tok ∈ ["480p".toList, "576p".toList, "720p".toList, "1080p".toList, "2160p".toList] →
      (∀ c ∈ pre, c.toNat < 128) →
      (∀ c ∈ post, c.toNat < 128) →
      (pre = [] ∨ ∃ c, pre.getLast? = some c ∧ isWordCharModel c = false) →
      (post = [] ∨ ∃ c, post.head? = some c ∧ isWordCharModel c = false) →
      pre ++ tok ++ post ≠ [] ∧
      Issue.MissingResolution ∉ (validate_scene_name (pre ++ tok ++ post)).issues := by
  intro pre post tok hmem hpreascii hpostascii hpre hpost
  rw [List.append_assoc]
  have hfacts : tok ∈ RESOLUTION_ALTS ∧ (∀ c ∈ tok, asciiLower c = c) ∧
      (∀ c, tok.head? = some c → rustIsWhitespace c = false) ∧
      (∃ cl, tok.getLast? = some cl ∧ rustIsWhitespace cl = false) ∧ tok ≠ [] := by
    simp only [List.mem_cons, List.not_mem_nil, or_false] at hmem
    rcases hmem with rfl | rfl | rfl | rfl | rfl <;>
      exact ⟨by decide, by decide, by decide, by decide, by decide⟩
  obtain ⟨haltmem, hfix, hheadws, ⟨cl, hcl, hclws⟩, htokne⟩ := hfacts
  -- left trim stops before the token block
  have hL : List.dropWhile rustIsWhitespace (pre ++ (tok ++ post)) =
      List.dropWhile rustIsWhitespace pre ++ (tok ++ post) := by
    apply dropWhile_append_stop
    intro c hc
    rw [head?_append_left tok post htokne] at hc
    exact hheadws c hc
  set pre2 := List.dropWhile rustIsWhitespace pre with hpre2
  -- right trim stops before the reversed token block
  have htokrne : tok.reverse ≠ [] := by simpa using htokne
  have hR : List.dropWhile rustIsWhitespace
        (post.reverse ++ (tok.reverse ++ pre2.reverse)) =
      List.dropWhile rustIsWhitespace post.reverse ++ (tok.reverse ++ pre2.reverse) := by
    apply dropWhile_append_stop
    intro c hc
    rw [head?_append_left _ _ htokrne, List.head?_reverse] at hc
    rw [hcl] at hc
    cases hc
    exact hclws
  have hrev : (pre2 ++ (tok ++ post)).reverse =
      post.reverse ++ (tok.reverse ++ pre2.reverse) := by
    simp [List.reverse_append, List.append_assoc]
  set post2 := (List.dropWhile rustIsWhitespace post.reverse).reverse with hpost2
  have htr : rustTrim (pre ++ (tok ++ post)) = pre2 ++ (tok ++ post2) := by
    unfold rustTrim
    rw [hL, hrev, hR]
    simp [List.reverse_append, hpost2, List.append_assoc]
  -- the post block is a left part of post, so its head keeps the boundary
  have hpostsplit : post2 ++ (List.takeWhile rustIsWhitespace post.reverse).reverse = post := by
    rw [hpost2, ← List.reverse_append, List.takeWhile_append_dropWhile, List.reverse_reverse]
  have hrest : restOk post2 = true := by
    cases hp2 : post2 with
    | nil => rfl
    | cons d ds =>
      have hp2ne : post2 ≠ [] := by rw [hp2]; simp
      have hhead : post.head? = some d := by
        rw [← hpostsplit, head?_append_left _ _ hp2ne, hp2]
        rfl
      rcases hpost with hnil | ⟨c, hc, hcw⟩
      · rw [hnil] at hhead
        cases hhead
      · rw [hc] at hhead
        cases hhead
        simp only [restOk]
        rw [hcw]
        rfl
  -- the pre block keeps its last character, so the left boundary holds
  have hpresplit : List.takeWhile rustIsWhitespace pre ++ pre2 = pre := by
    rw [hpre2]
    exact List.takeWhile_append_dropWhile _ _
  have hleft : ∀ c, pre2.getLast? = some c → prevOk (some c) = true := by
    intro c hc
    have hp2ne : pre2 ≠ [] := by
      intro h
      rw [h] at hc
      cases hc
    have hlast : pre.getLast? = some c := by
      rw [← hpresplit, getLast?_append_right _ _ hp2ne]
      exact hc
    rcases hpre with hnil | ⟨c2, hc2, hc2w⟩
    · rw [hnil] at hlast
      cases hlast
    · rw [hc2] at hlast
      cases hlast
      simp only [prevOk]
      rw [hc2w]
      rfl
  have hmatch : reIsMatch RESOLUTION_ALTS (rustTrim (pre ++ (tok ++ post))) = true := by
    rw [htr]
    unfold reIsMatch
    exact boundaryScan_append RESOLUTION_ALTS pre2 none (tok ++ post2)
      (fun _ => rfl) hleft (matchAltsAt_of RESOLUTION_ALTS tok post2 haltmem hfix hrest)
  have htrne : rustTrim (pre ++ (tok ++ post)) ≠ [] := by
    rw [htr]
    intro h
    rcases List.append_eq_nil.mp h with ⟨_, h2⟩
    rcases List.append_eq_nil.mp h2 with ⟨h3, _⟩
    exact htokne h3
  refine ⟨?_, ?_⟩
  · intro h
    rcases List.append_eq_nil.mp h with ⟨_, h2⟩
    rcases List.append_eq_nil.mp h2 with ⟨h3, _⟩
    exact htokne h3
  · intro hmem2
    simp only [validate_scene_name] at hmem2
    rw [if_neg htrne] at hmem2
    rcases List.mem_append.mp hmem2 with h | h
    rcases List.mem_append.mp h with h | h
    rcases List.mem_append.mp h with h | h
    rcases List.mem_append.mp h with h | h
    rcases List.mem_append.mp h with h | h
    · exact absurd (mem_ite_singleton h) (by decide)
    · exact absurd (mem_ite_singleton h) (by decide)
    · exact absurd (mem_ite_singleton h) (by decide)
    · rw [hmatch] at h
      simp at h
    · exact absurd (mem_ite_singleton h) (by decide)
    · exact absurd (mem_ite_singleton h) (by decide)

/-- C5 amended witness: the string Movie.1080p.x264 carries 1080p as a
standalone token and the validator does not report MissingResolution on
it. -/
theorem c5_witness :
    ("Movie.".toList ++ "1080p".toList ++ ".x264".toList ≠ [] ∧
     Issue.MissingResolution ∉
       (validate_scene_name ("Movie.".toList ++ "1080p".toList ++ ".x264".toList)).issues) :=
  c5_amended_standalone_resolution "Movie.".toList ".x264".toList "1080p".toList
    (by decide) (by decide) (by decide)
    (Or.inr ⟨'.', by decide, by decide⟩) (Or.inr ⟨'.', by decide, by decide⟩)

/-- Under the last-dot flag the fold never emits a leading dot: the first
emitted character is a word character. -/
theorem sceneFold_head_true : ∀ (s : List Char) (c : Char),
    (sceneFold s true).head? = some c → rustIsAlphanumeric c = true := by
  intro s
  induction s with
  | nil => intro c h; cases h
  | cons d ds ih =>
    intro c h
    simp only [sceneFold] at h
    split at h
    · rename_i hcond
      simp only [List.head?_cons, Option.some_inj] at h
      exact h ▸ hcond
    · split at h
      · exact ih c h
      · split at h
        · exact ih c h
        · rename_i hfalse
          exact absurd trivial hfalse

/-- The fold emits only word characters and dots. -/
theorem sceneFold_wordsOrDots : ∀ (s : List Char) (b : Bool),
    wordsOrDots (sceneFold s b) = true := by
  intro s
  induction s with
  | nil => intro b; rfl
  | cons d ds ih =>
    intro b
    simp only [sceneFold]
    split
    · rename_i hcond
      unfold wordsOrDots
      rw [List.all_cons]
      have h := ih false
      unfold wordsOrDots at h
      rw [h, hcond]
      rfl
    · split
      · exact ih b
      · split
        · exact ih true
        · unfold wordsOrDots
          rw [List.all_cons]
          have h := ih true
          unfold wordsOrDots at h
          rw [h]
          rfl

/-- Tails keep the no-double-dot property. -/
theorem noDoubleDot_tail : ∀ (c : Char) (cs : List Char),
    noDoubleDot (c :: cs) = true → noDoubleDot cs = true := by
  intro c cs h
  cases cs with
  | nil => rfl
  | cons d ds =>
    simp only [noDoubleDot] at h
    rw [Bool.and_eq_true] at h
    exact h.2

/-- The fold never emits two adjacent dots. -/
theorem sceneFold_noDoubleDot : ∀ (s : List Char) (b : Bool),
    noDoubleDot (sceneFold s b) = true := by
  intro s
  induction s with
  | nil => intro b; rfl
  | cons d ds ih =>
    intro b
    simp only [sceneFold]
    split
    · rename_i hcond
      cases hr : sceneFold ds false with
      | nil => rfl
      | cons e es =>
        simp only [noDoubleDot]
        rw [Bool.and_eq_true]
        refine ⟨?_, by rw [← hr]; exact ih false⟩
        have hd : ¬ d = '.' := by
          intro hdot
          rw [hdot] at hcond
          exact absurd hcond (by decide)
        simp [hd]
    · split
      · exact ih b
      · split
        · exact ih true
        · cases hr : sceneFold ds true with
          | nil => rfl
          | cons e es =>
            simp only [noDoubleDot]
            rw [Bool.and_eq_true]
            refine ⟨?_, by rw [← hr]; exact ih true⟩
            have he : rustIsAlphanumeric e = true :=
              sceneFold_head_true ds e (by rw [hr]; rfl)
            have hene : ¬ e = '.' := by
              intro hdot
              rw [hdot] at he
              exact absurd he (by decide)
            simp [hene]

/-- On a clean token string the fold is the identity. -/
theorem sceneFold_fixed : ∀ t : List Char,
    wordsOrDots t = true → noDoubleDot t = true →
    ((t.head? ≠ some '.' → sceneFold t true = t) ∧ sceneFold t false = t) := by
  intro t
  induction t with
  | nil => intro _ _; exact ⟨fun _ => rfl, rfl⟩
  | cons c cs ih =>
    intro hw hn
    have hw' : (rustIsAlphanumeric c || c = '.') = true ∧ wordsOrDots cs = true := by
      unfold wordsOrDots at hw
      rw [List.all_cons, Bool.and_eq_true] at hw
      exact ⟨by simpa using hw.1, hw.2⟩
    have ihm := ih hw'.2 (noDoubleDot_tail c cs hn)
    by_cases hc : rustIsAlphanumeric c = true
    · constructor
      · intro _
        simp [sceneFold, hc, ihm.2]
      · simp [sceneFold, hc, ihm.2]
    · have hcdot : c = '.' := by
        have h := hw'.1
        rw [Bool.or_eq_true] at h
        rcases h with h | h
        · exact absurd h hc
        · simpa using h
      subst hcdot
      constructor
      · intro hne
        exact absurd rfl hne
      · have hcs : sceneFold cs true = cs := by
          cases cs with
          | nil => rfl
          | cons d ds =>
            have hd : ¬ d = '.' := by
              intro hdot
              subst hdot
              simp [noDoubleDot] at hn
            exact ihm.1 (by simpa using hd)
        have h1 : rustIsAlphanumeric '.' = false := by decide
        have h2 : (isDropSymbol '.' || rustIsControl '.') = false := by decide
        simp [sceneFold, h1, h2, hcs]

/-- The head of a dropWhile result fails the predicate. -/
theorem head?_dropWhile_false (p : Char → Bool) :
    ∀ (l : List Char) (c : Char), (l.dropWhile p).head? = some c → p c = false := by
  intro l
  induction l with
  | nil => intro c h; cases h
  | cons a as ih =>
    intro c h
    simp only [List.dropWhile] at h
    split at h
    · exact ih c h
    · rename_i hpa
      simp only [List.head?_cons, Option.some_inj] at h
      subst h
      simpa using hpa

/-- Dropped elements still belong to the original list. -/
theorem mem_dropWhile (p : Char → Bool) :
    ∀ (l : List Char) (c : Char), c ∈ l.dropWhile p → c ∈ l := by
  intro l
  induction l with
  | nil => intro c h; cases h
  | cons a as ih =>
    intro c h
    simp only [List.dropWhile] at h
    split at h
    · exact List.mem_cons_of_mem a (ih c h)
    · exact h

/-- A right part of an append keeps the no-double-dot property. -/
theorem noDoubleDot_append_right : ∀ (a b : List Char),
    noDoubleDot (a ++ b) = true → noDoubleDot b = true := by
  intro a
  induction a with
  | nil => intro b h; exact h
  | cons x xs ih =>
    intro b h
    exact ih b (noDoubleDot_tail x (xs ++ b) h)

/-- A left part of an append keeps the no-double-dot property. -/
theorem noDoubleDot_append_left : ∀ (a b : List Char),
    noDoubleDot (a ++ b) = true → noDoubleDot a = true := by
  intro a
  induction a with
  | nil => intro b _; rfl
  | cons x xs ih =>
    intro b h
    cases xs with
    | nil => rfl
    | cons y ys =>
      simp only [List.cons_append] at h
      simp only [noDoubleDot] at h ⊢
      rw [Bool.and_eq_true] at h
      rw [Bool.and_eq_true]
      exact ⟨h.1, ih b (by simpa using h.2)⟩

/-- Characters of the trimmed list belong to the original list. -/
theorem mem_trimDots (r : List Char) (c : Char) (hc : c ∈ trimDots r) : c ∈ r := by
  unfold trimDots dropTrailingDots at hc
  have h1 := List.mem_reverse.mp hc
  have h2 := mem_dropWhile _ _ c h1
  have h3 := List.mem_reverse.mp h2
  exact mem_dropWhile _ _ c h3

/-- Trimming keeps the words-or-dots property. -/
theorem wordsOrDots_trimDots (r : List Char) (h : wordsOrDots r = true) :
    wordsOrDots (trimDots r) = true := by
  unfold wordsOrDots at *
  rw [List.all_eq_true] at *
  intro c hc
  exact h c (mem_trimDots r c hc)

/-- The trimmed list splits the dropWhile result into itself and trailing
dots. -/
theorem trimDots_split (r : List Char) :
    trimDots r ++ ((r.dropWhile (fun c => c == '.')).reverse.takeWhile
      (fun c => c == '.')).reverse = r.dropWhile (fun c => c == '.') := by
  unfold trimDots dropTrailingDots
  rw [← List.reverse_append, List.takeWhile_append_dropWhile, List.reverse_reverse]

/-- Trimming keeps the no-double-dot property. -/
theorem noDoubleDot_trimDots (r : List Char) (h : noDoubleDot r = true) :
    noDoubleDot (trimDots r) = true := by
  have hu : noDoubleDot (r.dropWhile (fun c => c == '.')) = true := by
    have hsplit : r.takeWhile (fun c => c == '.') ++ r.dropWhile (fun c => c == '.') = r :=
      List.takeWhile_append_dropWhile _ _
    apply noDoubleDot_append_right (r.takeWhile (fun c => c == '.'))
    rw [hsplit]
    exact h
  apply noDoubleDot_append_left _ _ (by rw [trimDots_split r]; exact hu)

/-- The trimmed list does not start with a dot. -/
theorem trimDots_head (r : List Char) :
    ∀ c, (trimDots r).head? = some c → (c == '.') = false := by
  intro c hc
  have hne : trimDots r ≠ [] := by
    intro h
    rw [h] at hc
    cases hc
  have hhead : (r.dropWhile (fun c => c == '.')).head? = some c := by
    rw [← trimDots_split r, head?_append_left _ _ hne]
    exact hc
  exact head?_dropWhile_false _ _ c hhead

/-- The trimmed list does not end with a dot. -/
theorem trimDots_last (r : List Char) :
    ∀ c, (trimDots r).getLast? = some c → (c == '.') = false := by
  intro c hc
  unfold trimDots dropTrailingDots at hc
  rw [List.getLast?_reverse] at hc
  exact head?_dropWhile_false _ _ c hc

/-- Trimming a list that neither starts nor ends with a dot is the
identity. -/
theorem trimDots_fixed (t : List Char)
    (hh : ∀ c, t.head? = some c → (c == '.') = false)
    (hl : ∀ c, t.getLast? = some c → (c == '.') = false) : trimDots t = t := by
  unfold trimDots dropTrailingDots
  have h1 : t.dropWhile (fun c => c == '.') = t := by
    cases t with
    | nil => rfl
    | cons c cs =>
      simp only [List.dropWhile]
      rw [hh c rfl]
  rw [h1]
  have h2 : t.reverse.dropWhile (fun c => c == '.') = t.reverse := by
    cases ht : t.reverse with
    | nil => rfl
    | cons c cs =>
      have hlast : t.getLast? = some c := by
        rw [← List.head?_reverse, ht]
        rfl
      simp only [List.dropWhile]
      rw [hl c hlast]
  rw [h2, List.reverse_reverse]

/-- The separator pass (fold plus trim) is idempotent. -/
theorem charPass_idem (s : List Char) :
    trimDots (sceneFold (trimDots (sceneFold s false)) false) =
      trimDots (sceneFold s false) := by
  have hw := sceneFold_wordsOrDots s false
  have hn := sceneFold_noDoubleDot s false
  have hw2 : wordsOrDots (trimDots (sceneFold s false)) = true :=
    wordsOrDots_trimDots _ hw
  have hn2 : noDoubleDot (trimDots (sceneFold s false)) = true :=
    noDoubleDot_trimDots _ hn
  rw [(sceneFold_fixed _ hw2 hn2).2]
  exact trimDots_fixed _ (trimDots_head _) (trimDots_last _)

/-- On ASCII input the modelled composition step is inert. -/
theorem nfcRun_ascii : ∀ (s : List Char) (a : Char), a.toNat < 128 →
    (∀ c ∈ s, c.toNat < 128) → nfcRun a s = a :: s := by
  intro s
  induction s with
  | nil => intro a _ _; rfl
  | cons b rs ih =>
    intro a ha h
    have hJ : (isJamoL a && isJamoV b) = false := by
      have : isJamoL a = false := by
        simp only [isJamoL, Bool.and_eq_false_iff, decide_eq_false_iff_not]
        left
        omega
      rw [this]
      rfl
    have hLV : (isHangulLV a && isJamoT b) = false := by
      have : isHangulLV a = false := by
        simp only [isHangulLV, Bool.and_eq_false_iff, decide_eq_false_iff_not]
        left
        left
        omega
      rw [this]
      rfl
    simp only [nfcRun]
    rw [hJ, hLV]
    simp only [Bool.false_eq_true, if_false]
    rw [ih b (h b (List.mem_cons_self b rs)) (fun c hc => h c (List.mem_cons_of_mem b hc))]

/-- On ASCII input the modelled composed normal form is inert. -/
theorem nfcModel_ascii : ∀ s : List Char, (∀ c ∈ s, c.toNat < 128) → nfcModel s = s := by
  intro s h
  cases s with
  | nil => rfl
  | cons a rest =>
    show nfcRun a rest = a :: rest
    exact nfcRun_ascii rest a (h a (List.mem_cons_self a rest))
      (fun c hc => h c (List.mem_cons_of_mem a hc))

/-- Every character the fold emits is a dot or a character of the input. -/
theorem mem_sceneFold : ∀ (s : List Char) (b : Bool) (c : Char),
    c ∈ sceneFold s b → c = '.' ∨ c ∈ s := by
  intro s
  induction s with
  | nil => intro b c h; cases h
  | cons d ds ih =>
    intro b c h
    simp only [sceneFold] at h
    split at h
    · rcases List.mem_cons.mp h with h | h
      · exact Or.inr (h ▸ List.mem_cons_self d ds)
      · rcases ih false c h with h | h
        · exact Or.inl h
        · exact Or.inr (List.mem_cons_of_mem d h)
    · split at h
      · rcases ih b c h with h | h
        · exact Or.inl h
        · exact Or.inr (List.mem_cons_of_mem d h)
      · split at h
        · rcases ih true c h with h | h
          · exact Or.inl h
          · exact Or.inr (List.mem_cons_of_mem d h)
        · rcases List.mem_cons.mp h with h | h
          · exact Or.inl h
          · rcases ih true c h with h | h
            · exact Or.inl h
            · exact Or.inr (List.mem_cons_of_mem d h)

/-- C8 counterexample: the tokenizer is not idempotent on every string.
On the input consisting of a Hangul leading jamo, a dropped copyright sign
and a Hangul vowel jamo, the first pass deletes the sign and makes the two
jamo adjacent; the second pass then composes them into one precomposed
syllable, changing the string. -/
theorem c8_counterexample :
    normalize_tokens_to_scene (normalize_tokens_to_scene ['ᄀ', '©', 'ᅡ']) ≠
      normalize_tokens_to_scene ['ᄀ', '©', 'ᅡ'] := by decide

/-- C8 amended: the tokenizer is a total function, and on every ASCII
input (where the composed normal form is inert) it is idempotent. -/
theorem c8_amended_idempotent_on_ascii :
    ∀ s : List Char, (∀ c ∈ s, c.toNat < 128) →
      normalize_tokens_to_scene (normalize_tokens_to_scene s) =
        normalize_tokens_to_scene s := by
  intro s hascii
  unfold normalize_tokens_to_scene
  rw [nfcModel_ascii s hascii]
  have hasc2 : ∀ c ∈ trimDots (sceneFold s false), c.toNat < 128 := by
    intro c hc
    rcases mem_sceneFold s false c (mem_trimDots _ c hc) with h | h
    · rw [h]; decide
    · exact hascii c h
  rw [nfcModel_ascii _ hasc2]
  exact charPass_idem s

/-- C8 witness: the tokenizer is idempotent on a concrete ASCII string. -/
theorem c8_witness :
    (∀ c ∈ "Hello  World (2020)!".toList, c.toNat < 128) ∧
    normalize_tokens_to_scene (normalize_tokens_to_scene "Hello  World (2020)!".toList) =
      normalize_tokens_to_scene "Hello  World (2020)!".toList :=
  ⟨by decide, c8_amended_idempotent_on_ascii _ (by decide)⟩

end Seedarr
